import Mathlib

/-!
Shallow embedding of the numerical core of `app.py` (stock trend
prediction dashboard): the train/test split, the min-max scaler
(sklearn `MinMaxScaler` with feature range (0, 1), including its
`_handle_zeros_in_scale` treatment of a degenerate range), the
sliding-window dataset construction, the de-normalization applied to
model outputs and test targets, and the evaluation metrics (sklearn
`mean_absolute_percentage_error`, `mean_squared_error`, `r2_score`,
and the numpy sign-of-first-difference directional accuracy).

Real-valued quantities are modelled over `ℚ`; the one irrational
quantity, RMSE, is expressed as `Real.sqrt` of the (rational) mean
squared error in the theorems that mention it.  The float truncation
`int(len(df) * 0.70)` is modelled as natural-number division
`7 * len / 10`, which agrees with the double-precision computation for
every realistic series length.
-/

namespace Stpv

/-- Minimum of a list (`np.min` over a non-empty array; the `[]` case
is never reached because sklearn rejects empty input earlier). -/
def listMin : List ℚ → ℚ
  | [] => 0
  | x :: xs => xs.foldl min x

/-- Maximum of a list (`np.max` over a non-empty array). -/
def listMax : List ℚ → ℚ
  | [] => 0
  | x :: xs => xs.foldl max x

/-- `np.finfo(np.float64).eps = 2 ^ (-52)`. -/
def eps : ℚ := 1 / 2 ^ 52

/-- sklearn `_handle_zeros_in_scale`: a (near-)zero data range is
replaced by 1, so a constant feature is scaled to 0 instead of causing
a division by zero. -/
def handleZeros (r : ℚ) : ℚ := if r < 10 * eps then 1 else r

/-- `MinMaxScaler.scale_` for feature range (0, 1), fitted on `tr`. -/
def mmScale (tr : List ℚ) : ℚ := 1 / handleZeros (listMax tr - listMin tr)

/-- `MinMaxScaler.min_` for feature range (0, 1). -/
def mmMin (tr : List ℚ) : ℚ := -(listMin tr * mmScale tr)

/-- `MinMaxScaler.transform` on one value: `x * scale_ + min_`. -/
def mmTransform (tr : List ℚ) (x : ℚ) : ℚ := x * mmScale tr + mmMin tr

/-- Lines 160-162 of `app.py`: `scale_factor = 1 / scaler.scale_[0]`
and the de-normalization `y * scale_factor` applied to both the model
outputs and the test targets. -/
def codeDenorm (tr : List ℚ) (y : ℚ) : ℚ := y * (1 / mmScale tr)

/-- Modelled from the spec: `denormalize(y) = y * (max - min) + min`,
the inverse transform the spec prescribes for converting model outputs
and test targets back to price units.  `app.py` itself has no such
function; it only multiplies by `1 / scaler.scale_[0]` (`codeDenorm`). -/
def specDenorm (tr : List ℚ) (y : ℚ) : ℚ :=
  y * (listMax tr - listMin tr) + listMin tr

/-- Lines 146-151 of `app.py`: for `i` in `range(W, len(S))`, collect
the pair `(S[i-W:i], S[i])`.  The window size is a parameter here;
`app.py` instantiates it at 100. -/
def buildWindows (W : ℕ) (S : List ℚ) : List (List ℚ × ℚ) :=
  (List.range' W (S.length - W)).filterMap
    (fun i => (S[i]?).map (fun t => ((S.drop (i - W)).take W, t)))

/-- sklearn `mean_absolute_percentage_error`:
`mean(|a - p| / max(|a|, eps))`. -/
def mape (a p : List ℚ) : ℚ :=
  (List.zipWith (fun x y => |x - y| / max |x| eps) a p).sum / a.length

/-- sklearn `mean_squared_error` (`math.sqrt` of this is the RMSE the
app reports). -/
def mse (a p : List ℚ) : ℚ :=
  (List.zipWith (fun x y => (x - y) ^ 2) a p).sum / a.length

/-- `np.mean`. -/
def meanQ (l : List ℚ) : ℚ := l.sum / l.length

/-- Residual sum of squares. -/
def ssRes (a p : List ℚ) : ℚ := (List.zipWith (fun x y => (x - y) ^ 2) a p).sum

/-- Total sum of squares about the mean of `a`. -/
def ssTot (a : List ℚ) : ℚ := (a.map (fun x => (x - meanQ a) ^ 2)).sum

/-- sklearn `r2_score`: `1 - ssRes / ssTot`, with the degenerate cases
resolved as sklearn resolves them (a zero residual gives 1 even on a
constant series; otherwise a constant series gives 0). -/
def r2 (a p : List ℚ) : ℚ :=
  if ssRes a p = 0 then 1
  else if ssTot a = 0 then 0
  else 1 - ssRes a p / ssTot a

/-- `np.sign`. -/
def sign (x : ℚ) : ℚ := if 0 < x then 1 else if x < 0 then -1 else 0

/-- `np.diff`: first differences `x_{i+1} - x_i`. -/
def diffs (l : List ℚ) : List ℚ := List.zipWith (fun x y => y - x) l l.tail

/-- Lines 168-170 of `app.py`:
`np.mean(np.sign(np.diff(a)) == np.sign(np.diff(p))) * 100`. -/
def directionalAccuracy (a p : List ℚ) : ℚ :=
  (List.zipWith (fun x y => if sign x = sign y then (1 : ℚ) else 0)
      (diffs a) (diffs p)).sum / (diffs a).length * 100

/-- Line 171 of `app.py`: `100 - mape * 100`, with no clamping. -/
def overallAccuracy (a p : List ℚ) : ℚ := 100 - mape a p * 100

/-- The five reported metrics, in order: MAPE, MSE (whose square root
is the reported RMSE), R², directional accuracy, overall accuracy. -/
def metricsReport (a p : List ℚ) : ℚ × ℚ × ℚ × ℚ × ℚ :=
  (mape a p, mse a p, r2 a p, directionalAccuracy a p, overallAccuracy a p)

/-- Line 124: `data_training = df.Close[0 : int(len(df) * 0.70)]`. -/
def splitTrain (df : List ℚ) : List ℚ := df.take (7 * df.length / 10)

/-- Line 125: `data_testing = df.Close[int(len(df) * 0.70) : len(df)]`. -/
def splitTest (df : List ℚ) : List ℚ := df.drop (7 * df.length / 10)

/-- Line 129: the guard `len(data_testing) < 100`. -/
def insufficientData (testLen : ℕ) : Bool := decide (testLen < 100)

/-- Line 142: `past_100_days = data_training.tail(100)`. -/
def past100 (tr : List ℚ) : List ℚ := tr.drop (tr.length - 100)

/-- Line 143: `final_df = pd.concat([past_100_days, data_testing])`. -/
def finalDf (tr te : List ℚ) : List ℚ := past100 tr ++ te

/-- The error message shown by line 130 of `app.py`. -/
def errMsg : String :=
  "Insufficient data points available. Please select a larger date range."

/-- Lines 124-171 of `app.py` as one function: split, guard, fit the
scaler on the training part, window the normalized concatenation of the
last 100 training points with the test part, de-normalize the targets
and the externally supplied model outputs `preds`, and compute the
metrics report. -/
def pipeline (df preds : List ℚ) : Except String (ℚ × ℚ × ℚ × ℚ × ℚ) :=
  if insufficientData (splitTest df).length then Except.error errMsg
  else
    Except.ok (metricsReport
      (((buildWindows 100
          ((finalDf (splitTrain df) (splitTest df)).map
            (mmTransform (splitTrain df)))).map Prod.snd).map
        (· * (1 / mmScale (splitTrain df))))
      (preds.map (· * (1 / mmScale (splitTrain df)))))

/-! ## Helper lemmas -/

theorem filterMap_eq_map_of_forall_some {α β : Type} (l : List α)
    (f : α → Option β) (g : α → β) (h : ∀ a ∈ l, f a = some (g a)) :
    l.filterMap f = l.map g := by
  induction l with
  | nil => rfl
  | cons x xs ih =>
    rw [List.filterMap_cons, h x (List.mem_cons_self x xs), List.map_cons,
      ih (fun a ha => h a (List.mem_cons_of_mem x ha))]

/-- The loop of lines 146-151 enumerates exactly the windows at start
offsets `0, 1, ..., len - W - 1`. -/
theorem buildWindows_eq_map (W : ℕ) (S : List ℚ) :
    buildWindows W S
      = (List.range (S.length - W)).map
          (fun i => ((S.drop i).take W, S.getD (i + W) 0)) := by
  unfold buildWindows
  rw [List.range'_eq_map_range, List.filterMap_map]
  apply filterMap_eq_map_of_forall_some
  intro j hj
  rw [List.mem_range] at hj
  have hWj : W + j < S.length := by omega
  simp only [Function.comp]
  rw [List.getElem?_eq_getElem hWj]
  rw [Option.map_some']
  have h1 : W + j - W = j := by omega
  have hjW : j + W < S.length := by omega
  have h2 : S.getD (j + W) 0 = S[W + j] := by
    rw [List.getD_eq_getElem S 0 hjW]
    congr 1
    omega
  rw [h1, h2]

theorem buildWindows_length (W : ℕ) (S : List ℚ) :
    (buildWindows W S).length = S.length - W := by
  rw [buildWindows_eq_map, List.length_map, List.length_range]

theorem buildWindows_getElem (W : ℕ) (S : List ℚ) (i : ℕ)
    (hi : i < S.length - W) :
    (buildWindows W S)[i]? = some ((S.drop i).take W, S.getD (i + W) 0) := by
  rw [buildWindows_eq_map, List.getElem?_map, List.getElem?_range hi]
  rfl

theorem foldl_min_replicate (c : ℚ) : ∀ n, (List.replicate n c).foldl min c = c
  | 0 => rfl
  | n + 1 => by
    rw [List.replicate_succ, List.foldl_cons, min_self]
    exact foldl_min_replicate c n

theorem foldl_max_replicate (c : ℚ) : ∀ n, (List.replicate n c).foldl max c = c
  | 0 => rfl
  | n + 1 => by
    rw [List.replicate_succ, List.foldl_cons, max_self]
    exact foldl_max_replicate c n

theorem listMin_replicate (c : ℚ) (n : ℕ) :
    listMin (List.replicate (n + 1) c) = c := by
  rw [List.replicate_succ]
  show (List.replicate n c).foldl min c = c
  exact foldl_min_replicate c n

theorem listMax_replicate (c : ℚ) (n : ℕ) :
    listMax (List.replicate (n + 1) c) = c := by
  rw [List.replicate_succ]
  show (List.replicate n c).foldl max c = c
  exact foldl_max_replicate c n

/-- The only error path of the embedded pipeline is the line-129 guard. -/
theorem pipeline_error_iff (df preds : List ℚ) :
    pipeline df preds = Except.error errMsg ↔ (splitTest df).length < 100 := by
  unfold pipeline insufficientData
  by_cases h : (splitTest df).length < 100
  · simp [h]
  · simp [h]

theorem pipeline_ok_iff (df preds : List ℚ) :
    (∃ r, pipeline df preds = Except.ok r) ↔ 100 ≤ (splitTest df).length := by
  unfold pipeline insufficientData
  by_cases h : (splitTest df).length < 100 <;> simp [h] <;> omega

/-- A concrete 333-point price series; its 70/30 split has a training
part of 233 points and a test part of exactly 100 points. -/
def dfC : List ℚ := List.replicate 333 1

theorem dfC_length : dfC.length = 333 := by
  rw [dfC, List.length_replicate]

theorem dfC_test_length : (splitTest dfC).length = 100 := by
  rw [splitTest, List.length_drop, dfC_length]

/-! ## Claim theorems -/

/-- C1: the spec asks that de-normalization be `y * (max - min) + min`,
making `inverseTransform(transform(x)) = x`; `app.py` (lines 160-162)
multiplies by `1 / scaler.scale_[0]` only, omitting the `+ min` offset.
On a scaler fitted over the range `[10, 20]`, the value 15 normalizes to
`1/2`, which the code de-normalizes to 5, not 15; the spec's formula
recovers 15. -/
theorem claim_C1_roundtrip_bug :
    mmTransform [10, 20] 15 = 1 / 2 ∧
    codeDenorm [10, 20] (mmTransform [10, 20] 15) = 5 ∧
    specDenorm [10, 20] (mmTransform [10, 20] 15) = 15 ∧
    codeDenorm [10, 20] (mmTransform [10, 20] 15) ≠ 15 := by
  norm_num [codeDenorm, specDenorm, mmTransform, mmScale, mmMin,
    handleZeros, eps, listMin, listMax, min_def, max_def]

/-- C2: for every window size `W` and series `S` with `W < len S`, the
windowed dataset builder produces exactly `len S - W` pairs; pair `i`
has window `S[i : i+W]` and target `S[i+W]`, in chronological order. -/
theorem claim_C2_window_pairs (W : ℕ) (S : List ℚ) (h : W < S.length) :
    (buildWindows W S).length = S.length - W ∧
    ∀ i, i < S.length - W →
      (buildWindows W S)[i]? = some ((S.drop i).take W, S.getD (i + W) 0) :=
  ⟨buildWindows_length W S, fun i hi => buildWindows_getElem W S i hi⟩

theorem claim_C2_window_pairs_witness :
    2 < ([1, 2, 3, 4, 5] : List ℚ).length ∧
    ((buildWindows 2 [1, 2, 3, 4, 5]).length
        = ([1, 2, 3, 4, 5] : List ℚ).length - 2 ∧
      ∀ i, i < ([1, 2, 3, 4, 5] : List ℚ).length - 2 →
        (buildWindows 2 [1, 2, 3, 4, 5])[i]?
          = some ((([1, 2, 3, 4, 5] : List ℚ).drop i).take 2,
              ([1, 2, 3, 4, 5] : List ℚ).getD (i + 2) 0)) :=
  ⟨by simp, claim_C2_window_pairs 2 [1, 2, 3, 4, 5] (by simp)⟩

/-- C4 counterexample: fitting on the constant series `[5, 5, 5]` does
not signal anything: the zero range is replaced by 1
(`_handle_zeros_in_scale`), and the transform silently produces values
(every fitted value maps to 0; the value 7 maps to 2). -/
theorem claim_C4_counterexample :
    handleZeros (listMax [5, 5, 5] - listMin [5, 5, 5]) = 1 ∧
    mmTransform [5, 5, 5] 5 = 0 ∧
    mmTransform [5, 5, 5] 7 = 2 := by
  norm_num [mmTransform, mmScale, mmMin, handleZeros, eps,
    listMin, listMax, min_def, max_def]

/-- C4 amended: fitting the scaler on a constant subsequence raises no
error and performs no division by zero: sklearn replaces the zero range
by 1, so the fitted scale is 1 and every value `x` is transformed to
`x - c`, i.e. the constant series itself maps to all zeros. -/
theorem claim_C4_amended (c x : ℚ) (n : ℕ) :
    mmScale (List.replicate (n + 1) c) = 1 ∧
    mmTransform (List.replicate (n + 1) c) x = x - c := by
  have hs : mmScale (List.replicate (n + 1) c) = 1 := by
    rw [mmScale, listMin_replicate, listMax_replicate, sub_self]
    norm_num [handleZeros, eps]
  refine ⟨hs, ?_⟩
  rw [mmTransform, mmMin, hs, listMin_replicate]
  ring

/-- C5: on `actual = [100, 105, 95]`, `predicted = [102, 100, 100]` the
evaluator returns MAPE = mean(2/100, 5/105, 5/95), RMSE = sqrt 18
(mean squared error exactly 18), and overall accuracy
`100 - MAPE * 100`. -/
theorem claim_C5_concrete_metrics :
    mape [100, 105, 95] [102, 100, 100] = (2 / 100 + 5 / 105 + 5 / 95) / 3 ∧
    mse [100, 105, 95] [102, 100, 100] = 18 ∧
    Real.sqrt ((mse [100, 105, 95] [102, 100, 100] : ℚ) : ℝ) = Real.sqrt 18 ∧
    overallAccuracy [100, 105, 95] [102, 100, 100]
      = 100 - (2 / 100 + 5 / 105 + 5 / 95) / 3 * 100 := by
  have hmse : mse [100, 105, 95] [102, 100, 100] = 18 := by norm_num [mse]
  refine ⟨?_, hmse, ?_, ?_⟩
  · norm_num [mape, eps, max_def, abs]
  · rw [hmse]
    norm_num
  · norm_num [overallAccuracy, mape, eps, max_def, abs]

/-- C8: overall accuracy is exactly `100 - MAPE * 100`, with no
clamping: it is negative whenever MAPE exceeds 1. -/
theorem claim_C8_no_clamp (a p : List ℚ) :
    overallAccuracy a p = 100 - mape a p * 100 ∧
    (1 < mape a p → overallAccuracy a p < 0) := by
  refine ⟨rfl, fun h => ?_⟩
  unfold overallAccuracy
  linarith

theorem claim_C8_no_clamp_witness :
    1 < mape [1] [3] ∧ overallAccuracy [1] [3] < 0 :=
  ⟨by norm_num [mape, eps, max_def, abs],
    (claim_C8_no_clamp [1] [3]).2 (by norm_num [mape, eps, max_def, abs])⟩

/-- C3 counterexample: on a 333-point series the test partition has
exactly 100 points — fewer than `windowSize + 1 = 101` — yet the guard
passes and the pipeline proceeds to a metrics report instead of raising
the insufficient-data error the claim requires. -/
theorem claim_C3_counterexample :
    (splitTest dfC).length < 101 ∧ ∃ r, pipeline dfC [] = Except.ok r := by
  have hlen : (splitTest dfC).length = 100 := dfC_test_length
  exact ⟨by omega, (pipeline_ok_iff dfC []).mpr (by omega)⟩

/-- C3 amended: the pipeline stops with the insufficient-data message
exactly when the test partition holds fewer than `windowSize = 100`
points (line 129 checks `len(data_testing) < 100`, not `< 101`);
with 100 or more test points it proceeds to a metrics report. -/
theorem claim_C3_amended (df preds : List ℚ) :
    (pipeline df preds = Except.error errMsg
        ↔ (splitTest df).length < 100) ∧
    ((∃ r, pipeline df preds = Except.ok r)
        ↔ 100 ≤ (splitTest df).length) :=
  ⟨pipeline_error_iff df preds, pipeline_ok_iff df preds⟩

/-- C9: the windowing and metric pipeline is deterministic — identical
inputs (same series, same model outputs) give an identical report. -/
theorem claim_C9_deterministic (df preds df2 preds2 : List ℚ)
    (h1 : df = df2) (h2 : preds = preds2) :
    pipeline df preds = pipeline df2 preds2 := by
  rw [h1, h2]

theorem claim_C9_deterministic_witness :
    dfC = dfC ∧ pipeline dfC [] = pipeline dfC [] :=
  ⟨rfl, claim_C9_deterministic dfC [] dfC [] rfl rfl⟩

/-- C10: whenever the guard passes (test partition of length
`T ≥ 100`), the windowed input is the concatenation of the last 100
training points with the test partition (length `100 + T`), so the
builder emits exactly `T` pairs, and the target of pair `i` is the
normalized `i`-th test-partition point — one target per test point, in
test-partition order. -/
theorem claim_C10_one_pair_per_test_point (df : List ℚ)
    (h : 100 ≤ (splitTest df).length) :
    (finalDf (splitTrain df) (splitTest df)).length
        = 100 + (splitTest df).length ∧
    (buildWindows 100 ((finalDf (splitTrain df) (splitTest df)).map
        (mmTransform (splitTrain df)))).length = (splitTest df).length ∧
    ∀ i, i < (splitTest df).length →
      ((buildWindows 100 ((finalDf (splitTrain df) (splitTest df)).map
          (mmTransform (splitTrain df))))[i]?).map Prod.snd
        = some (mmTransform (splitTrain df) ((splitTest df).getD i 0)) := by
  have htr : (splitTrain df).length = 7 * df.length / 10 := by
    simp [splitTrain]
    omega
  have hte : (splitTest df).length = df.length - 7 * df.length / 10 := by
    simp [splitTest]
  have htrlen : 100 ≤ (splitTrain df).length := by
    rw [htr]
    rw [hte] at h
    omega
  have hp : (past100 (splitTrain df)).length = 100 := by
    simp [past100]
    omega
  have hf : (finalDf (splitTrain df) (splitTest df)).length
      = 100 + (splitTest df).length := by
    simp [finalDf, hp]
  have hM : ((finalDf (splitTrain df) (splitTest df)).map
      (mmTransform (splitTrain df))).length = 100 + (splitTest df).length := by
    rw [List.length_map, hf]
  refine ⟨hf, ?_, ?_⟩
  · rw [buildWindows_length, hM]
    omega
  · intro i hi
    have hiM : i < ((finalDf (splitTrain df) (splitTest df)).map
        (mmTransform (splitTrain df))).length - 100 := by
      rw [hM]
      omega
    rw [buildWindows_getElem 100 _ i hiM, Option.map_some']
    have hidx : i + 100 < ((finalDf (splitTrain df) (splitTest df)).map
        (mmTransform (splitTrain df))).length := by
      rw [hM]
      omega
    have hidx2 : i + 100 < (finalDf (splitTrain df) (splitTest df)).length := by
      rw [hf]
      omega
    rw [List.getD_eq_getElem?_getD, List.getElem?_map]
    have hidx3 : (past100 (splitTrain df)).length ≤ i + 100 := by
      rw [hp]
      omega
    have happ : (finalDf (splitTrain df) (splitTest df))[i + 100]?
        = (splitTest df)[i]? := by
      simp only [finalDf]
      rw [List.getElem?_append_right hidx3, hp]
      congr 1
    rw [happ]
    cases hte2 : (splitTest df)[i]? with
    | none =>
      rw [List.getElem?_eq_none_iff] at hte2
      omega
    | some v =>
      simp [hte2, List.getD_eq_getElem?_getD]

theorem claim_C10_one_pair_per_test_point_witness :
    100 ≤ (splitTest dfC).length ∧
    (buildWindows 100 ((finalDf (splitTrain dfC) (splitTest dfC)).map
        (mmTransform (splitTrain dfC)))).length = (splitTest dfC).length :=
  ⟨by rw [dfC_test_length],
    (claim_C10_one_pair_per_test_point dfC (by rw [dfC_test_length])).2.1⟩

theorem sum_eq_zero_of_nonneg (l : List ℚ) (h : ∀ x ∈ l, 0 ≤ x)
    (hs : l.sum = 0) : ∀ x ∈ l, x = 0 := by
  induction l with
  | nil => intro x hx; cases hx
  | cons y ys ih =>
    rw [List.sum_cons] at hs
    have hy : 0 ≤ y := h y (List.mem_cons_self y ys)
    have hys : 0 ≤ ys.sum :=
      List.sum_nonneg (fun x hx => h x (List.mem_cons_of_mem y hx))
    intro x hx
    rcases List.mem_cons.mp hx with rfl | hx2
    · linarith
    · exact ih (fun z hz => h z (List.mem_cons_of_mem y hz)) (by linarith) x hx2

theorem zip_sq_sum_nonneg (u : List ℚ) :
    ∀ v : List ℚ, 0 ≤ (List.zipWith (fun x y => (x - y) ^ 2) u v).sum := by
  induction u with
  | nil => intro v; simp
  | cons x xs ih =>
    intro v
    cases v with
    | nil => simp
    | cons y ys =>
      rw [List.zipWith_cons_cons, List.sum_cons]
      have h1 := sq_nonneg (x - y)
      have h2 := ih ys
      linarith

theorem eps_nonneg : (0 : ℚ) ≤ eps := by norm_num [eps]

theorem zip_abs_sum_nonneg (u : List ℚ) :
    ∀ v : List ℚ,
      0 ≤ (List.zipWith (fun x y => |x - y| / max |x| eps) u v).sum := by
  induction u with
  | nil => intro v; simp
  | cons x xs ih =>
    intro v
    cases v with
    | nil => simp
    | cons y ys =>
      rw [List.zipWith_cons_cons, List.sum_cons]
      have h1 : 0 ≤ |x - y| / max |x| eps :=
        div_nonneg (abs_nonneg _) (le_trans eps_nonneg (le_max_right _ _))
      have h2 := ih ys
      linarith

theorem mape_nonneg (a p : List ℚ) : 0 ≤ mape a p :=
  div_nonneg (zip_abs_sum_nonneg a p) (Nat.cast_nonneg _)

theorem mse_nonneg (a p : List ℚ) : 0 ≤ mse a p :=
  div_nonneg (zip_sq_sum_nonneg a p) (Nat.cast_nonneg _)

theorem ssRes_nonneg (a p : List ℚ) : 0 ≤ ssRes a p := zip_sq_sum_nonneg a p

theorem ssTot_nonneg (a : List ℚ) : 0 ≤ ssTot a := by
  apply List.sum_nonneg
  intro z hz
  obtain ⟨x, _, rfl⟩ := List.mem_map.mp hz
  exact sq_nonneg _

theorem ssRes_self (a : List ℚ) : ssRes a a = 0 := by
  induction a with
  | nil => rfl
  | cons x xs ih =>
    unfold ssRes at ih ⊢
    rw [List.zipWith_cons_cons, List.sum_cons, sub_self, ih]
    norm_num

theorem ssRes_zero_eq (a : List ℚ) :
    ∀ p : List ℚ, a.length = p.length → ssRes a p = 0 → a = p := by
  induction a with
  | nil =>
    intro p hlen _
    cases p with
    | nil => rfl
    | cons y ys => simp at hlen
  | cons x xs ih =>
    intro p hlen h0
    cases p with
    | nil => simp at hlen
    | cons y ys =>
      unfold ssRes at h0
      rw [List.zipWith_cons_cons, List.sum_cons] at h0
      have h1 := sq_nonneg (x - y)
      have h2 : 0 ≤ ssRes xs ys := ssRes_nonneg xs ys
      unfold ssRes at h2
      have hxy : (x - y) ^ 2 = 0 := by linarith
      have hx : x = y := by
        have := sq_eq_zero_iff.mp hxy
        linarith
      have hxs : xs = ys := by
        apply ih ys (by simpa using hlen)
        unfold ssRes
        linarith
      rw [hx, hxs]

theorem ssTot_zero_all_eq (a : List ℚ) (h0 : ssTot a = 0) :
    ∀ x ∈ a, x = meanQ a := by
  intro x hx
  have hall := sum_eq_zero_of_nonneg (a.map fun z => (z - meanQ a) ^ 2)
    (fun z hz => by
      obtain ⟨w, _, rfl⟩ := List.mem_map.mp hz
      exact sq_nonneg _) h0
  have hx2 : (x - meanQ a) ^ 2 = 0 :=
    hall _ (List.mem_map_of_mem _ hx)
  have := sq_eq_zero_iff.mp hx2
  linarith

theorem ssTot_ne_zero (a : List ℚ)
    (hnc : ¬ ∀ x ∈ a, ∀ y ∈ a, x = y) : ssTot a ≠ 0 := by
  intro h0
  apply hnc
  intro x hx y hy
  rw [ssTot_zero_all_eq a h0 x hx, ssTot_zero_all_eq a h0 y hy]

theorem r2_le_one (a p : List ℚ) : r2 a p ≤ 1 := by
  unfold r2
  split_ifs with h1 h2
  · exact le_refl 1
  · norm_num
  · have hres := ssRes_nonneg a p
    have htot := ssTot_nonneg a
    have := div_nonneg hres htot
    linarith

theorem r2_eq_one_iff (a p : List ℚ) (hlen : a.length = p.length)
    (htot : ssTot a ≠ 0) : r2 a p = 1 ↔ a = p := by
  by_cases h1 : ssRes a p = 0
  · rw [r2, if_pos h1]
    exact ⟨fun _ => ssRes_zero_eq a p hlen h1, fun _ => rfl⟩
  · rw [r2, if_neg h1, if_neg htot]
    constructor
    · intro h
      exfalso
      have hq : ssRes a p / ssTot a = 0 := by linarith
      rcases div_eq_zero_iff.mp hq with h3 | h3
      · exact h1 h3
      · exact htot h3
    · intro h
      exfalso
      rw [h] at h1
      exact h1 (ssRes_self p)


theorem diffs_length (l : List ℚ) : (diffs l).length = l.length - 1 := by
  rw [diffs, List.length_zipWith, List.length_tail]
  omega

theorem diffs_getD (l : List ℚ) (i : ℕ) (hi : i < l.length - 1) :
    (diffs l).getD i 0 = l.getD (i + 1) 0 - l.getD i 0 := by
  have h1 : i < (diffs l).length := by rw [diffs_length]; omega
  have hi1 : i < l.length := by omega
  have hi2 : i + 1 < l.length := by omega
  rw [List.getD_eq_getElem _ _ h1]
  simp only [diffs] at h1 ⊢
  rw [List.getElem_zipWith, List.getElem_tail]
  rw [List.getD_eq_getElem _ _ hi2, List.getD_eq_getElem _ _ hi1]

theorem zip_ind_sum (q : ℚ → ℚ → Prop) [inst : ∀ x y, Decidable (q x y)] :
    ∀ u v : List ℚ, u.length = v.length →
      (List.zipWith (fun x y => if q x y then (1 : ℚ) else 0) u v).sum
        = ((List.range u.length).countP
            (fun i => decide (q (u.getD i 0) (v.getD i 0))) : ℕ) := by
  intro u
  induction u with
  | nil =>
    intro v h
    simp
  | cons x xs ih =>
    intro v h
    cases v with
    | nil => simp at h
    | cons y ys =>
      rw [List.zipWith_cons_cons, List.sum_cons, ih ys (by simpa using h)]
      rw [List.length_cons, List.range_succ_eq_map, List.countP_cons,
        List.countP_map]
      have hcomp :
          ((fun i => decide (q ((x :: xs : List ℚ).getD i 0)
              ((y :: ys : List ℚ).getD i 0))) ∘ (· + 1))
            = fun i => decide (q (xs.getD i 0) (ys.getD i 0)) := by
        funext i
        simp [Function.comp, List.getD_cons_succ]
      rw [hcomp]
      simp only [List.getD_cons_zero]
      by_cases hq : q x y <;> simp [hq] <;> push_cast <;> ring

/-- C6: for equal-length sequences with at least 2 points, the
directional accuracy is 100 times the fraction, over the `len - 1`
consecutive first-difference pairs, of positions whose difference signs
agree (`np.sign`, so a zero difference matches only another zero
difference), and it always lies in `[0, 100]`. -/
theorem claim_C6_directional (a p : List ℚ) (hlen : a.length = p.length)
    (h2 : 2 ≤ a.length) :
    directionalAccuracy a p
        = 100 * ((List.range (a.length - 1)).countP
            (fun i => decide (sign (a.getD (i + 1) 0 - a.getD i 0)
              = sign (p.getD (i + 1) 0 - p.getD i 0))) : ℕ)
            / ((a.length : ℚ) - 1) ∧
    0 ≤ directionalAccuracy a p ∧ directionalAccuracy a p ≤ 100 := by
  have hda := diffs_length a
  have hdp := diffs_length p
  have hlen2 : (diffs a).length = (diffs p).length := by rw [hda, hdp, hlen]
  have hsum := zip_ind_sum (fun x y => sign x = sign y) (diffs a) (diffs p) hlen2
  simp only [] at hsum
  have hcnt : (List.range (diffs a).length).countP
      (fun i => decide (sign ((diffs a).getD i 0) = sign ((diffs p).getD i 0)))
      = (List.range (a.length - 1)).countP
          (fun i => decide (sign (a.getD (i + 1) 0 - a.getD i 0)
            = sign (p.getD (i + 1) 0 - p.getD i 0))) := by
    rw [hda]
    apply List.countP_congr
    intro i hi
    rw [List.mem_range] at hi
    rw [diffs_getD a i hi, diffs_getD p i (by omega)]
  have hcast : ((a.length - 1 : ℕ) : ℚ) = (a.length : ℚ) - 1 := by
    have h1 : 1 ≤ a.length := by omega
    push_cast [h1]
    ring
  have hpos : (0 : ℚ) < (a.length : ℚ) - 1 := by
    rw [← hcast]
    have : 1 ≤ a.length - 1 := by omega
    exact_mod_cast Nat.lt_of_lt_of_le Nat.zero_lt_one this
  have heq : directionalAccuracy a p
      = 100 * ((List.range (a.length - 1)).countP
          (fun i => decide (sign (a.getD (i + 1) 0 - a.getD i 0)
            = sign (p.getD (i + 1) 0 - p.getD i 0))) : ℕ)
          / ((a.length : ℚ) - 1) := by
    unfold directionalAccuracy
    rw [hsum, hcnt, hda, hcast]
    ring
  refine ⟨heq, ?_, ?_⟩
  · rw [heq]
    apply div_nonneg _ (le_of_lt hpos)
    exact mul_nonneg (by norm_num) (Nat.cast_nonneg _)
  · rw [heq]
    rw [div_le_iff hpos]
    have hcle : (List.range (a.length - 1)).countP
        (fun i => decide (sign (a.getD (i + 1) 0 - a.getD i 0)
          = sign (p.getD (i + 1) 0 - p.getD i 0))) ≤ a.length - 1 := by
      calc (List.range (a.length - 1)).countP _
          ≤ (List.range (a.length - 1)).length := List.countP_le_length _
        _ = a.length - 1 := List.length_range _
    have hc2 : (((List.range (a.length - 1)).countP
        (fun i => decide (sign (a.getD (i + 1) 0 - a.getD i 0)
          = sign (p.getD (i + 1) 0 - p.getD i 0))) : ℕ) : ℚ)
        ≤ (a.length : ℚ) - 1 := by
      rw [← hcast]
      exact_mod_cast hcle
    nlinarith

theorem claim_C6_directional_witness :
    2 ≤ ([10, 12, 11, 15] : List ℚ).length ∧
    0 ≤ directionalAccuracy [10, 12, 11, 15] [10, 23/2, 56/5, 14] ∧
    directionalAccuracy [10, 12, 11, 15] [10, 23/2, 56/5, 14] ≤ 100 :=
  ⟨by simp,
    (claim_C6_directional [10, 12, 11, 15] [10, 23/2, 56/5, 14] rfl
      (by simp)).2⟩

/-- C7: for equal-length non-empty sequences with non-constant actual
values (each nonzero), MAPE and MSE are non-negative (hence the RMSE
`Real.sqrt (mse)` is too), and R² is at most 1, with equality exactly
when the predictions coincide with the actual values. -/
theorem claim_C7_metric_bounds (a p : List ℚ) (hlen : a.length = p.length)
    (hne : a ≠ []) (hnz : ∀ x ∈ a, x ≠ 0)
    (hnc : ¬ ∀ x ∈ a, ∀ y ∈ a, x = y) :
    0 ≤ mape a p ∧ 0 ≤ mse a p ∧
    0 ≤ Real.sqrt ((mse a p : ℚ) : ℝ) ∧
    r2 a p ≤ 1 ∧ (r2 a p = 1 ↔ a = p) :=
  ⟨mape_nonneg a p, mse_nonneg a p, Real.sqrt_nonneg _,
    r2_le_one a p, r2_eq_one_iff a p hlen (ssTot_ne_zero a hnc)⟩

theorem claim_C7_metric_bounds_witness :
    (¬ ∀ x ∈ ([1, 2] : List ℚ), ∀ y ∈ ([1, 2] : List ℚ), x = y) ∧
    r2 [1, 2] [1, 2] ≤ 1 ∧ (r2 [1, 2] [1, 2] = 1 ↔ ([1, 2] : List ℚ) = [1, 2]) :=
  ⟨by
    intro hall
    have := hall 1 (by norm_num) 2 (by norm_num)
    norm_num at this,
    (claim_C7_metric_bounds [1, 2] [1, 2] rfl (by simp)
      (by norm_num) (by
        intro hall
        have := hall 1 (by norm_num) 2 (by norm_num)
        norm_num at this)).2.2.2⟩


end Stpv
